import Mathlib

/-!
Shallow embedding of the unit-and-quantity normalization engine:

* `src/unit_converter.py` — class `UnitConverter`: `convert_fraction_to_decimal`,
  `fahrenheit_to_celsius`, `convert_measurement`, `convert_text` (a regex-driven
  substitution pass);
* `src/app.py` (lines 1723–1748) — `scale_ingredient` with its inner `scale_match`;
* `src/recipe_scraper.py` (lines 11–40) — `parse_iso_duration`.

Modelling conventions: Python floats are idealised as exact rationals (`ℚ`);
Python's `round` (round-half-to-even, the documented tie-break of the source's
native rounding primitive) is `pyRound`/`pyRoundTo`; `round(x, n)` acts on the
exact rational rather than on the binary double, so results agree with CPython
whenever the decimal values involved are exactly representable intents (all
concrete values in this development are).  Strings are `List Char` internally.

Python exceptions are modelled at two levels.  The value-level layer uses
`Option` (`none` = the raise) for per-token failures and idealises floats as
unbounded exact rationals.  The exception-aware layer (`PyFl`, `PyRes`,
`convert_text_exc`) additionally models what CPython really does past the
double range: `float()` saturates to infinity instead of raising, arithmetic
overflows silently to infinity, the plain `round()` raises `OverflowError` on
infinity (`ValueError` on NaN) while `round(x, n)` passes both through — so
the `except (ValueError, ZeroDivisionError)` handler of `convert_text`
catches some conversion failures and lets `OverflowError` escape to the
caller.
-/

set_option allowUnsafeReducibility true
set_option maxRecDepth 32768
set_option exponentiation.threshold 1100

-- Batteries marks the rational-number operations `@[irreducible]`, which only
-- blocks the elaborator's evaluation in `decide`; restoring the default
-- reducibility lets concrete instances of the definitions below be settled by
-- `decide` (the kernel re-checks every such proof either way).
attribute [semireducible] Rat.mul Rat.add Rat.sub Rat.inv Rat.div Rat.ofScientific

/-- Characters accepted by Python's `\s` / `str.strip()` (ASCII whitespace). -/
def pySpace (c : Char) : Bool :=
  c = ' ' ∨ c = '\t' ∨ c = '\n' ∨ c = '\r' ∨ c = '\x0b' ∨ c = '\x0c'

/-- Word character for Python's `\b` word boundary (ASCII `\w`). -/
def isWordChar (c : Char) : Bool :=
  c.isAlphanum ∨ c = '_'

/-- Python `str.lower()` on a character list (ASCII case mapping). -/
def pyLower (cs : List Char) : List Char :=
  cs.map Char.toLower

/-- Python `str.strip()`: remove leading and trailing whitespace. -/
def pyStrip (cs : List Char) : List Char :=
  ((cs.dropWhile pySpace).reverse.dropWhile pySpace).reverse

/-- Numeric value of a (non-empty) digit string, as `int(...)` would parse it. -/
def natOfDigits (ds : List Char) : ℕ :=
  ds.foldl (fun a c => a * 10 + (c.toNat - 48)) 0

/-- Decimal digits of a natural number, as Python `str(int)`. -/
def natChars (n : ℕ) : List Char :=
  (toString n).data

/-- Decimal rendering of an integer, as Python `str(int)`. -/
def intChars (z : ℤ) : List Char :=
  if z < 0 then '-' :: natChars z.natAbs else natChars z.natAbs

/-- Floor of a rational number (`q.num.fdiv q.den` is exact floor division). -/
def qfloor (q : ℚ) : ℤ :=
  q.num.fdiv q.den

/-- Python 3 `round(x)`: round to the nearest integer, ties to the even
integer (banker's rounding). -/
def pyRound (q : ℚ) : ℤ :=
  if q - (qfloor q : ℚ) < 1/2 then qfloor q
  else if (1/2 : ℚ) < q - (qfloor q : ℚ) then qfloor q + 1
  else if qfloor q % 2 = 0 then qfloor q else qfloor q + 1

/-- Python 3 `round(x, p)`: round to `p` decimal places (ties to even). -/
def pyRoundTo (p : ℕ) (q : ℚ) : ℚ :=
  (pyRound (q * 10 ^ p) : ℚ) / 10 ^ p

/-- Python `float(s)` restricted to the token shapes the measurement regexes
can produce (`digits`, `digits.`, `digits.digits`, `.digits`); every other
input returns `none`, modelling `ValueError`.  (Python's `float` also accepts
signs, exponents and padding, but no regex-captured token here has them.)
The parse here is exact and unbounded — an idealisation of the finite double;
CPython's saturation to infinity past the double range is modelled on top of
it by `pyFloatD` in the exception-aware layer below. -/
def pyFloat (cs : List Char) : Option ℚ :=
  let intPart := cs.takeWhile Char.isDigit
  let r := cs.dropWhile Char.isDigit
  match r with
  | [] => if intPart.isEmpty then none else some (natOfDigits intPart)
  | '.' :: t =>
    if t.all Char.isDigit ∧ ¬(intPart.isEmpty ∧ t.isEmpty) then
      some ((natOfDigits intPart : ℚ) + (natOfDigits t : ℚ) / 10 ^ t.length)
    else none
  | _ => none

/-- Python `str.split(sep)` on a character list. -/
def splitC (sep : Char) : List Char → List (List Char)
  | [] => [[]]
  | c :: cs =>
    if c = sep then [] :: splitC sep cs
    else
      match splitC sep cs with
      | [] => [[c]]
      | p :: ps => (c :: p) :: ps

/-- UnitConverter.convert_fraction_to_decimal (src/unit_converter.py:57-62):
`if '/' in s: parts = s.split('/'); return float(parts[0]) / float(parts[1])`
else `float(s)`.  A zero denominator (`ZeroDivisionError`) or unparseable part
(`ValueError`) yields `none`. -/
def convert_fraction_to_decimal (s : List Char) : Option ℚ :=
  if s.contains '/' then
    match splitC '/' s with
    | a :: b :: _ =>
      match pyFloat a, pyFloat b with
      | some x, some y => if y = 0 then none else some (x / y)
      | _, _ => none
    | _ => none
  else pyFloat s

/-- UnitConverter.fahrenheit_to_celsius (src/unit_converter.py:64-66):
`round((fahrenheit - 32) * 5/9)`. -/
def fahrenheit_to_celsius (f : ℚ) : ℤ :=
  pyRound ((f - 32) * 5 / 9)

/-- Temperature spellings checked first by `convert_measurement`
(src/unit_converter.py:82). -/
def tempUnits : List String :=
  ["fahrenheit", "f", "°f"]

/-- UnitConverter.CONVERSIONS (src/unit_converter.py:12-45): the class-level
dict, in source order, mapping each unit spelling to its (metric unit,
factor); the three temperature keys carry factor `None`. -/
def CONVERSIONS : List (String × String × Option ℚ) :=
  [("cup", "ml", some 236.588), ("cups", "ml", some 236.588),
   ("tablespoon", "ml", some 14.787), ("tablespoons", "ml", some 14.787),
   ("tbsp", "ml", some 14.787),
   ("teaspoon", "ml", some 4.929), ("teaspoons", "ml", some 4.929),
   ("tsp", "ml", some 4.929),
   ("fluid ounce", "ml", some 29.574), ("fluid ounces", "ml", some 29.574),
   ("fl oz", "ml", some 29.574),
   ("pint", "ml", some 473.176), ("pints", "ml", some 473.176),
   ("quart", "l", some 0.946), ("quarts", "l", some 0.946),
   ("gallon", "l", some 3.785), ("gallons", "l", some 3.785),
   ("ounce", "g", some 28.350), ("ounces", "g", some 28.350),
   ("oz", "g", some 28.350),
   ("pound", "g", some 453.592), ("pounds", "g", some 453.592),
   ("lb", "g", some 453.592), ("lbs", "g", some 453.592),
   ("fahrenheit", "celsius", none), ("f", "celsius", none),
   ("°f", "celsius", none)]

/-- Dict lookup `self.CONVERSIONS[unit_lower]` guarded by
`unit_lower in self.CONVERSIONS` (src/unit_converter.py:87-88). -/
def conversions (u : String) : Option (String × Option ℚ) :=
  CONVERSIONS.lookup u

/-- Normalised unit key: `unit.lower().strip()` (src/unit_converter.py:79). -/
def unit_lower (u : String) : String :=
  ⟨pyStrip (pyLower u.data)⟩

/-- Claim-level "recognized unit": the normalised spelling is a key of
`CONVERSIONS` (which includes the temperature spellings). -/
def recognizedUnit (u : String) : Bool :=
  (conversions (unit_lower u)).isSome

/-- Python numbers as they leave `convert_measurement`: an `int` (from
`round(x)` / `fahrenheit_to_celsius`), a float known to be a multiple of
`10^-prec` (from `round(x, prec)`), or a raw float passed through unchanged
on the unrecognised-unit path. -/
inductive PyNum where
  | int (z : ℤ)
  | dec (q : ℚ) (prec : ℕ)
  | float (q : ℚ)
deriving DecidableEq

/-- Numeric value of a `PyNum`. -/
def PyNum.val : PyNum → ℚ
  | .int z => z
  | .dec q _ => q
  | .float q => q

/-- UnitConverter.convert_measurement (src/unit_converter.py:68-105). -/
def convert_measurement (amount : ℚ) (unit : String) : PyNum × String :=
  let ul := unit_lower unit
  if ul ∈ tempUnits then
    (.int (fahrenheit_to_celsius amount), "°C")
  else
    match conversions ul with
    | some (mu, some factor) =>
      let converted := amount * factor
      if mu = "ml" ∧ 1000 ≤ converted then (.dec (pyRoundTo 2 (converted / 1000)) 2, "l")
      else if mu = "g" ∧ 1000 ≤ converted then (.dec (pyRoundTo 2 (converted / 1000)) 2, "kg")
      else if converted < 10 then (.dec (pyRoundTo 1 converted) 1, mu)
      else (.int (pyRound converted), mu)
    | some (_, none) =>
      -- unreachable: the temperature keys (the only `None` factors) are
      -- intercepted by the branch above
      (.float amount, unit)
    | none => (.float amount, unit)

example : convert_measurement 5 "cups" = (.dec 1.18 2, "l") := by decide
example : convert_measurement 350 "F" = (.int 177, "°C") := by decide
example : convert_measurement 0 "f" = (.int (-18), "°C") := by decide
example : convert_measurement 2 "cups" = (.int 473, "ml") := by decide

/-!
The measurement regex (src/unit_converter.py:49-55):

  `(\d+(?:/\d+)?(?:\.\d+)?)\s*(?:to\s+\d+(?:/\d+)?(?:\.\d+)?\s*)?(<units>)\b`

with `re.IGNORECASE`, applied by `re.sub` (leftmost, non-overlapping matches,
scanning left to right).  The parsers below implement exactly this pattern.
Greedy sub-parts need no backtracking here (a digit/slash/dot can never start
a unit alternative, so giving characters back can never create a match),
except for the optional range group: if the range matches but no unit follows
it, the engine retries the unit right after the leading whitespace — that
retry is kept in `tryMatch` for faithfulness. -/

/-- Optional `(?:/\d+)?` group of the amount token. -/
def optSlashDigits (cs : List Char) : List Char × List Char :=
  match cs with
  | c :: t =>
    if c = '/' then
      let ds := t.takeWhile Char.isDigit
      if ds = [] then ([], c :: t) else (c :: ds, t.dropWhile Char.isDigit)
    else ([], c :: t)
  | [] => ([], [])

/-- Optional `(?:\.\d+)?` group of the amount token. -/
def optDotDigits (cs : List Char) : List Char × List Char :=
  match cs with
  | c :: t =>
    if c = '.' then
      let ds := t.takeWhile Char.isDigit
      if ds = [] then ([], c :: t) else (c :: ds, t.dropWhile Char.isDigit)
    else ([], c :: t)
  | [] => ([], [])

/-- Amount token `\d+(?:/\d+)?(?:\.\d+)?` (capture group 1 of the regex). -/
def parseAmount (cs : List Char) : Option (List Char × List Char) :=
  let ds := cs.takeWhile Char.isDigit
  if ds = [] then none
  else
    let s1 := optSlashDigits (cs.dropWhile Char.isDigit)
    let s2 := optDotDigits s1.2
    some (ds ++ s1.1 ++ s2.1, s2.2)

theorem optSlashDigits_append (cs : List Char) :
    (optSlashDigits cs).1 ++ (optSlashDigits cs).2 = cs := by
  unfold optSlashDigits
  match cs with
  | [] => rfl
  | c :: t =>
    by_cases hc : c = '/'
    · by_cases hds : t.takeWhile Char.isDigit = []
      · simp [hc, hds]
      · simp [hc, hds, List.takeWhile_append_dropWhile]
    · simp [hc]

theorem optDotDigits_append (cs : List Char) :
    (optDotDigits cs).1 ++ (optDotDigits cs).2 = cs := by
  unfold optDotDigits
  match cs with
  | [] => rfl
  | c :: t =>
    by_cases hc : c = '.'
    · by_cases hds : t.takeWhile Char.isDigit = []
      · simp [hc, hds]
      · simp [hc, hds, List.takeWhile_append_dropWhile]
    · simp [hc]

theorem parseAmount_append {cs tok rest : List Char}
    (h : parseAmount cs = some (tok, rest)) : tok ++ rest = cs ∧ tok ≠ [] := by
  unfold parseAmount at h
  by_cases hds : cs.takeWhile Char.isDigit = []
  · simp [hds] at h
  · simp only [hds, if_neg, reduceIte, Option.some.injEq, Prod.mk.injEq] at h
    obtain ⟨htok, hrest⟩ := h
    subst htok hrest
    refine ⟨?_, by simp [hds]⟩
    simp only [List.append_assoc]
    rw [optDotDigits_append, optSlashDigits_append, List.takeWhile_append_dropWhile]

/-- Optional range group `(?:to\s+\d+(?:/\d+)?(?:\.\d+)?\s*)?` (consumed by the
match but not captured: only group 1 and group 2 reach the replacement). -/
def parseRange (cs : List Char) : Option (List Char × List Char) :=
  match cs with
  | c1 :: c2 :: r =>
    if c1.toLower = 't' ∧ c2.toLower = 'o' then
      let sp := r.takeWhile pySpace
      if sp = [] then none
      else
        match parseAmount (r.dropWhile pySpace) with
        | some (num, r2) =>
          some (c1 :: c2 :: (sp ++ num ++ r2.takeWhile pySpace), r2.dropWhile pySpace)
        | none => none
    else none
  | _ => none

theorem parseRange_append {cs mid rest : List Char}
    (h : parseRange cs = some (mid, rest)) : mid ++ rest = cs := by
  unfold parseRange at h
  match cs with
  | [] => exact absurd h (by simp)
  | [c] => exact absurd h (by simp)
  | c1 :: c2 :: r =>
    by_cases hto : c1.toLower = 't' ∧ c2.toLower = 'o'
    · simp only [hto, and_self, reduceIte] at h
      by_cases hsp : r.takeWhile pySpace = []
      · simp [hsp] at h
      · simp only [hsp, reduceIte] at h
        cases ha : parseAmount (r.dropWhile pySpace) with
        | none => rw [ha] at h; exact absurd h (by simp)
        | some v =>
          obtain ⟨num, r2⟩ := v
          rw [ha] at h
          simp only [Option.some.injEq, Prod.mk.injEq] at h
          obtain ⟨hmid, hrest⟩ := h
          subst hmid hrest
          have h1 := (parseAmount_append ha).1
          simp only [List.cons_append, List.cons.injEq, true_and, List.append_assoc]
          rw [List.takeWhile_append_dropWhile, h1, List.takeWhile_append_dropWhile]
    · simp [hto] at h

/-- Case-insensitive literal match: consume pattern `ps` at the head of `cs`
(both sides lowered, as `re.IGNORECASE` compares). -/
def matchCI : List Char → List Char → Option (List Char)
  | [], cs => some cs
  | _ :: _, [] => none
  | p :: ps, c :: cs => if c.toLower = p.toLower then matchCI ps cs else none

theorem matchCI_drop {ps cs rest : List Char} (h : matchCI ps cs = some rest) :
    rest = cs.drop ps.length ∧ ps.length ≤ cs.length := by
  induction ps generalizing cs with
  | nil =>
    simp only [matchCI, Option.some.injEq] at h
    subst h
    simp
  | cons p ps ih =>
    match cs with
    | [] => exact absurd h (by simp [matchCI])
    | c :: cs =>
      unfold matchCI at h
      by_cases hc : c.toLower = p.toLower
      · simp only [hc, reduceIte] at h
        obtain ⟨h1, h2⟩ := ih h
        exact ⟨by simpa using h1, by simpa using h2⟩
      · simp [hc] at h

/-- Word-boundary check `\b` after a unit (every unit ends in a word character,
so the boundary holds exactly when the next character is not one, or the text
ends). -/
def boundaryOk : List Char → Bool
  | [] => true
  | c :: _ => !isWordChar c

/-- Unit alternatives of the regex, in the pattern's alternation order
(src/unit_converter.py:51-53). -/
def unitAlts : List (List Char) :=
  ["cup".data, "cups".data, "tablespoon".data, "tablespoons".data, "tbsp".data,
   "teaspoon".data, "teaspoons".data, "tsp".data,
   "fluid ounce".data, "fluid ounces".data, "fl oz".data,
   "pint".data, "pints".data, "quart".data, "quarts".data,
   "gallon".data, "gallons".data,
   "ounce".data, "ounces".data, "oz".data,
   "pound".data, "pounds".data, "lb".data, "lbs".data,
   "°f".data, "fahrenheit".data, "f".data]

/-- First alternative (in alternation order) that matches case-insensitively
and is followed by a word boundary; returns the text's own characters (group 2
keeps the original casing) and the rest. -/
def parseUnitAux : List (List Char) → List Char → Option (List Char × List Char)
  | [], _ => none
  | alt :: alts, cs =>
    match matchCI alt cs with
    | some rest => if boundaryOk rest then some (cs.take alt.length, rest) else parseUnitAux alts cs
    | none => parseUnitAux alts cs

/-- Unit token parser (capture group 2). -/
def parseUnit (cs : List Char) : Option (List Char × List Char) :=
  parseUnitAux unitAlts cs

theorem parseUnitAux_append {alts : List (List Char)} {cs u rest : List Char}
    (hne : ∀ a ∈ alts, a ≠ []) (h : parseUnitAux alts cs = some (u, rest)) :
    u ++ rest = cs ∧ u ≠ [] := by
  induction alts with
  | nil => exact absurd h (by simp [parseUnitAux])
  | cons alt alts ih =>
    unfold parseUnitAux at h
    cases hm : matchCI alt cs with
    | none =>
      rw [hm] at h
      exact ih (fun a ha => hne a (List.mem_cons_of_mem _ ha)) h
    | some rest0 =>
      rw [hm] at h
      by_cases hb : boundaryOk rest0
      · simp only [hb, reduceIte, Option.some.injEq, Prod.mk.injEq] at h
        obtain ⟨hu, hrest⟩ := h
        subst hu hrest
        obtain ⟨hr, hle⟩ := matchCI_drop hm
        subst hr
        refine ⟨List.take_append_drop _ _, ?_⟩
        have halt : alt ≠ [] := hne alt (List.mem_cons_self _ _)
        have h1 : 0 < alt.length := List.length_pos.mpr halt
        have h2 : (cs.take alt.length).length = min alt.length cs.length :=
          List.length_take _ _
        intro hnil
        rw [hnil] at h2
        simp at h2
        omega
      · simp only [hb, Bool.false_eq_true, reduceIte] at h
        exact ih (fun a ha => hne a (List.mem_cons_of_mem _ ha)) h

theorem parseUnit_append {cs u rest : List Char}
    (h : parseUnit cs = some (u, rest)) : u ++ rest = cs ∧ u ≠ [] :=
  parseUnitAux_append (by decide) h

/-- One match of the measurement regex: group 1 (the amount token), the
consumed-but-dropped middle (whitespace and optional range expression), and
group 2 (the unit token, original casing). -/
structure MMatch where
  amountStr : List Char
  midStr : List Char
  unitStr : List Char
  deriving DecidableEq

/-- Group 0 of a match: the full matched substring. -/
def MMatch.orig (m : MMatch) : List Char :=
  m.amountStr ++ m.midStr ++ m.unitStr

/-- Attempt to match the measurement regex at the head of `cs` (the whole
pattern: amount, `\s*`, optional range, unit alternation with `\b`). -/
def tryMatch (cs : List Char) : Option (MMatch × List Char) :=
  match parseAmount cs with
  | none => none
  | some (amt, r1) =>
    match parseRange (r1.dropWhile pySpace) with
    | some (rng, r3) =>
      match parseUnit r3 with
      | some (u, rest) => some (⟨amt, r1.takeWhile pySpace ++ rng, u⟩, rest)
      | none =>
        match parseUnit (r1.dropWhile pySpace) with
        | some (u, rest) => some (⟨amt, r1.takeWhile pySpace, u⟩, rest)
        | none => none
    | none =>
      match parseUnit (r1.dropWhile pySpace) with
      | some (u, rest) => some (⟨amt, r1.takeWhile pySpace, u⟩, rest)
      | none => none

theorem tryMatch_append {cs rest : List Char} {mm : MMatch}
    (h : tryMatch cs = some (mm, rest)) : mm.orig ++ rest = cs ∧ mm.amountStr ≠ [] := by
  unfold tryMatch at h
  split at h
  · exact absurd h (by simp)
  next amt r1 ha =>
    obtain ⟨hr1, hamt⟩ := parseAmount_append ha
    split at h
    next rng r3 hrg =>
      have hr3 := parseRange_append hrg
      split at h
      next u rest0 hu =>
        obtain ⟨hu1, _⟩ := parseUnit_append hu
        simp only [Option.some.injEq, Prod.mk.injEq] at h
        obtain ⟨hmm, hrest⟩ := h
        subst hrest
        subst hmm
        refine ⟨?_, by simpa using hamt⟩
        simp only [MMatch.orig, List.append_assoc]
        rw [hu1, hr3, List.takeWhile_append_dropWhile, hr1]
      next hu =>
        split at h
        next u rest0 hu2 =>
          obtain ⟨hu1, _⟩ := parseUnit_append hu2
          simp only [Option.some.injEq, Prod.mk.injEq] at h
          obtain ⟨hmm, hrest⟩ := h
          subst hrest
          subst hmm
          refine ⟨?_, by simpa using hamt⟩
          simp only [MMatch.orig, List.append_assoc]
          rw [hu1, List.takeWhile_append_dropWhile, hr1]
        next => exact absurd h (by simp)
    next hrg =>
      split at h
      next u rest0 hu2 =>
        obtain ⟨hu1, _⟩ := parseUnit_append hu2
        simp only [Option.some.injEq, Prod.mk.injEq] at h
        obtain ⟨hmm, hrest⟩ := h
        subst hrest
        subst hmm
        refine ⟨?_, by simpa using hamt⟩
        simp only [MMatch.orig, List.append_assoc]
        rw [hu1, List.takeWhile_append_dropWhile, hr1]
      next => exact absurd h (by simp)

theorem tryMatch_length {cs rest : List Char} {mm : MMatch}
    (h : tryMatch cs = some (mm, rest)) : rest.length < cs.length := by
  obtain ⟨happ, hne⟩ := tryMatch_append h
  have hlen := congrArg List.length happ
  simp only [List.length_append, MMatch.orig] at hlen
  have : 0 < mm.amountStr.length := List.length_pos.mpr hne
  omega

/-- Pieces of the `re.sub` pass: an unmatched character copied through, or a
regex match. -/
inductive CPiece where
  | raw (c : Char)
  | m (mm : MMatch)
  deriving DecidableEq

/-- Decomposition of the text as `re.sub` scans it: at each position, emit a
match (and continue after it) or copy one character.  Structural recursion on
a fuel bound (any fuel at least the text's length gives the same result, by
`findPiecesAux_fuel`; a match always consumes at least one character, by
`tryMatch_length`). -/
def findPiecesAux : ℕ → List Char → List CPiece
  | 0, _ => []
  | _ + 1, [] => []
  | fuel + 1, c :: cs =>
    match tryMatch (c :: cs) with
    | some (mm, rest) => .m mm :: findPiecesAux fuel rest
    | none => .raw c :: findPiecesAux fuel cs

/-- Match decomposition of a whole text (`re.sub`'s scan). -/
def findPieces (cs : List Char) : List CPiece :=
  findPiecesAux cs.length cs

/-- Drop trailing zero decimal digits of `n` (seen with `p` decimal places),
keeping at least one decimal digit — Python's shortest `str(float)` for a
value that is an exact multiple of `10^-p`. -/
def stripDecZeros : ℕ → ℕ → ℕ × ℕ
  | n, 0 => (n, 0)
  | n, 1 => (n, 1)
  | n, p + 2 => if n % 10 = 0 then stripDecZeros (n / 10) (p + 1) else (n, p + 2)

/-- Fractional digits padded on the left with zeros to width `p`. -/
def padZeros (p : ℕ) (frac : ℕ) : List Char :=
  List.replicate (p - (natChars frac).length) '0' ++ natChars frac

/-- Python `str()` of the float produced by `round(x, p)` (a multiple of
`10^-p`): minimal decimal digits, at least one kept after the point. -/
def decChars (q : ℚ) (p : ℕ) : List Char :=
  let m : ℤ := (q * 10 ^ p).num
  let sign : List Char := if m < 0 then ['-'] else []
  let sp := stripDecZeros m.natAbs p
  let p1 := max sp.2 1
  sign ++ natChars (sp.1 / 10 ^ p1) ++ '.' :: padZeros p1 (sp.1 % 10 ^ p1)

/-- Python `str()` of a float passed through unchanged.  Only the
unrecognised-unit identity path of `convert_measurement` produces this
constructor, and `convert_text` never takes that path (every regex-matched
unit spelling is in the lexicon), so this rendering is unreachable from
`convert_text`. -/
def floatChars (q : ℚ) : List Char :=
  if q.den = 1 then intChars q.num ++ ['.', '0']
  else intChars q.num ++ '/' :: natChars q.den

/-- Python `str()`/f-string interpolation of a `PyNum`. -/
def renderPyNum : PyNum → List Char
  | .int z => intChars z
  | .dec q p => decChars q p
  | .float q => floatChars q

/-- Per-match replacement `replace_measurement` (src/unit_converter.py:117-131):
parse group 1, convert, and format `"{converted} {metric_unit} ({amount_str}
{unit})"`; on `ValueError`/`ZeroDivisionError` (modelled by `none`) return
`match.group(0)` unchanged.  The two `isinstance` branches of the source build
the identical f-string, so a single format is used. -/
def renderMatch (mm : MMatch) : List Char :=
  match convert_fraction_to_decimal mm.amountStr with
  | none => mm.orig
  | some amount =>
    let r := convert_measurement amount ⟨mm.unitStr⟩
    renderPyNum r.1 ++ ' ' :: r.2.data ++ ' ' :: '(' :: mm.amountStr ++ ' ' :: mm.unitStr ++ [')']

/-- Original text of a piece (what the scan consumed there). -/
def pieceOrig : CPiece → List Char
  | .raw c => [c]
  | .m mm => mm.orig

/-- Output text of a piece (what `re.sub` emits there). -/
def renderPiece : CPiece → List Char
  | .raw c => [c]
  | .m mm => renderMatch mm

/-- Concatenated original text of a piece list. -/
def origAll : List CPiece → List Char
  | [] => []
  | p :: ps => pieceOrig p ++ origAll ps

/-- Concatenated output text of a piece list. -/
def renderAll : List CPiece → List Char
  | [] => []
  | p :: ps => renderPiece p ++ renderAll ps

/-- UnitConverter.convert_text (src/unit_converter.py:107-133):
`self.measurement_pattern.sub(replace_measurement, text)`. -/
def convert_text (s : String) : String :=
  ⟨renderAll (findPieces s.data)⟩

theorem findPiecesAux_fuel (fuel : ℕ) :
    ∀ fuel2 cs, cs.length ≤ fuel → cs.length ≤ fuel2 →
      findPiecesAux fuel cs = findPiecesAux fuel2 cs := by
  induction fuel with
  | zero =>
    intro fuel2 cs hle _
    have : cs = [] := List.eq_nil_of_length_eq_zero (Nat.le_zero.mp hle)
    subst this
    cases fuel2 <;> rfl
  | succ fuel ih =>
    intro fuel2 cs hle hle2
    match cs with
    | [] => cases fuel2 <;> rfl
    | c :: cs =>
      match fuel2 with
      | 0 => simp at hle2
      | fuel2 + 1 =>
        cases h : tryMatch (c :: cs) with
        | some v =>
          obtain ⟨mm, rest⟩ := v
          have hlt := tryMatch_length h
          simp only [List.length_cons] at hle hle2 hlt
          simp only [findPiecesAux, h]
          rw [ih fuel2 rest (by omega) (by omega)]
        | none =>
          simp only [List.length_cons] at hle hle2
          simp only [findPiecesAux, h]
          rw [ih fuel2 cs (by omega) (by omega)]

theorem origAll_findPiecesAux (fuel : ℕ) :
    ∀ cs : List Char, cs.length ≤ fuel → origAll (findPiecesAux fuel cs) = cs := by
  induction fuel with
  | zero =>
    intro cs hle
    have : cs = [] := List.eq_nil_of_length_eq_zero (Nat.le_zero.mp hle)
    subst this
    rfl
  | succ fuel ih =>
    intro cs hle
    match cs with
    | [] => rfl
    | c :: cs =>
      cases h : tryMatch (c :: cs) with
      | some v =>
        obtain ⟨mm, rest⟩ := v
        have hlt := tryMatch_length h
        simp only [List.length_cons] at hle hlt
        simp only [findPiecesAux, h, origAll, pieceOrig]
        rw [ih rest (by omega), (tryMatch_append h).1]
      | none =>
        simp only [List.length_cons] at hle
        simp only [findPiecesAux, h, origAll, pieceOrig, List.singleton_append]
        rw [ih cs (by omega)]

theorem origAll_findPieces (cs : List Char) : origAll (findPieces cs) = cs :=
  origAll_findPiecesAux cs.length cs le_rfl

example : convert_text "" = "" := by decide
example : convert_text "2 cups" = "473 ml (2 cups)" := by decide
example : convert_text "hello" = "hello" := by decide

/-!
Exception-aware model of the converter.  `convert_text` above is the
value-level idealisation (floats as unbounded exact rationals); the
definitions below model the same source lines with CPython's actual float
semantics: parses and products saturate to infinity past the double range,
`inf/inf` is NaN, and a raised exception either is caught by the handler at
src/unit_converter.py:130 (`ValueError`, `ZeroDivisionError`) or escapes
`convert_text` (`OverflowError` from the plain `round()` on infinity).  The
two models agree on any text whose matched values, quotients and products all
stay below the overflow bound. -/

/-- CPython `float()`/arithmetic overflow threshold: a non-negative exact
value of at least `2^1024 - 2^970` rounds (ties-to-even) past the largest
double, and the result is infinity.  (Computed in `ℕ` so that evaluation uses
the kernel's bignum arithmetic rather than deep `npow` recursion.) -/
def FLOAT_OVF : ℚ := ((2 ^ 1024 - 2 ^ 970 : ℕ) : ℚ)

/-- IEEE-754 double as CPython sees it on this code's paths: a finite value
(idealised to the exact rational), positive infinity (from parse or
arithmetic overflow — every token and factor here is non-negative, so
negative infinity never arises), or NaN (from `inf/inf`). -/
inductive PyFl where
  | fin (q : ℚ)
  | inf
  | nan
  deriving DecidableEq

/-- Saturate an exact non-negative result to infinity past the double range
(parse and arithmetic share the round-to-nearest overflow boundary). -/
def mkFl (q : ℚ) : PyFl :=
  if FLOAT_OVF ≤ q then .inf else .fin q

/-- CPython `float(s)` with overflow: saturates to infinity rather than
raising. -/
def pyFloatD (cs : List Char) : Option PyFl :=
  (pyFloat cs).map mkFl

/-- Exceptions arising on these code paths. -/
inductive PyExc where
  | valueError
  | zeroDivisionError
  | overflowError
  deriving DecidableEq

/-- Result of running a Python expression: a value, or a raised exception. -/
inductive PyRes (α : Type) where
  | ok (a : α)
  | exc (e : PyExc)
  deriving DecidableEq

/-- Float division as CPython: a zero denominator raises `ZeroDivisionError`
whatever the numerator, `x/inf` is `0.0`, `inf/inf` is NaN, `x/nan` is NaN,
and a finite quotient saturates past the double range.  (Negative
denominators cannot reach this function: both parts parse from unsigned
tokens.) -/
def pyDiv (a b : PyFl) : PyRes PyFl :=
  match b with
  | .fin y =>
    if y = 0 then .exc .zeroDivisionError
    else
      match a with
      | .fin x => .ok (mkFl (x / y))
      | .inf => .ok .inf
      | .nan => .ok .nan
  | .inf =>
    match a with
    | .fin _ => .ok (.fin 0)
    | .inf => .ok .nan
    | .nan => .ok .nan
  | .nan => .ok .nan

/-- Float multiplication by a table factor (always positive), saturating. -/
def mulFl (a : PyFl) (f : ℚ) : PyFl :=
  match a with
  | .fin x => mkFl (x * f)
  | .inf => if f = 0 then .nan else .inf
  | .nan => .nan

/-- Float comparison `c <= v` (false on NaN, true on infinity). -/
def geFl (v : PyFl) (c : ℚ) : Bool :=
  match v with
  | .fin q => c ≤ q
  | .inf => true
  | .nan => false

/-- Float comparison `v < c` (false on NaN and on infinity). -/
def ltFl (v : PyFl) (c : ℚ) : Bool :=
  match v with
  | .fin q => q < c
  | .inf => false
  | .nan => false

/-- `converted / 1000` on floats (a finite value stays finite). -/
def divFl1000 : PyFl → PyFl
  | .fin q => .fin (q / 1000)
  | .inf => .inf
  | .nan => .nan

/-- The temperature expression `(v - 32) * 5/9` evaluated stepwise as CPython
does: the product `(v - 32) * 5` can overflow for finite `v`. -/
def tempFl : PyFl → PyFl
  | .fin q =>
    match mkFl ((q - 32) * 5) with
    | .fin r => .fin (r / 9)
    | .inf => .inf
    | .nan => .nan
  | .inf => .inf
  | .nan => .nan

/-- `round(v)` (no ndigits): `OverflowError` on infinity, `ValueError` on
NaN. -/
def pyRoundE : PyFl → PyRes ℤ
  | .fin q => .ok (pyRound q)
  | .inf => .exc .overflowError
  | .nan => .exc .valueError

/-- `round(v, p)`: unlike the no-ndigits form this never raises — CPython
returns infinity and NaN unchanged. -/
def pyRoundToFl (p : ℕ) : PyFl → PyFl
  | .fin q => .fin (pyRoundTo p q)
  | .inf => .inf
  | .nan => .nan

/-- Converted amount in the exception-aware model: an `int` from `round(x)`,
a float from `round(x, p)` (possibly infinity, since `round(inf, 2)` is
`inf`), or the untouched amount from the unrecognised-unit identity path. -/
inductive PyNumE where
  | int (z : ℤ)
  | dec (v : PyFl) (prec : ℕ)
  | raw (v : PyFl)
  deriving DecidableEq

/-- Python `str()` of an exception-aware amount (`str(float('inf'))` is
`"inf"`, `str(float('nan'))` is `"nan"`). -/
def renderPyNumE : PyNumE → List Char
  | .int z => intChars z
  | .dec (.fin q) p => decChars q p
  | .dec .inf _ => "inf".data
  | .dec .nan _ => "nan".data
  | .raw (.fin q) => floatChars q
  | .raw .inf => "inf".data
  | .raw .nan => "nan".data

/-- convert_fraction_to_decimal (src/unit_converter.py:57-62) with CPython
float semantics: saturating parse, `ZeroDivisionError` on a zero denominator,
`ValueError` on an unparseable part.  The division itself never raises
`OverflowError` (a huge quotient silently becomes infinity). -/
def convert_fraction_to_decimal_exc (s : List Char) : PyRes PyFl :=
  if s.contains '/' then
    match splitC '/' s with
    | a :: b :: _ =>
      match pyFloatD a, pyFloatD b with
      | some x, some y => pyDiv x y
      | _, _ => .exc .valueError
    | _ => .exc .valueError
  else
    match pyFloatD s with
    | some v => .ok v
    | none => .exc .valueError

/-- convert_measurement (src/unit_converter.py:68-105) with CPython float
semantics.  The promotion branches call `round(x, 2)`, which passes infinity
through, so an overflowed ml- or g-product converts to the string `inf`; the
no-promotion integer branch calls `round(converted)`, which raises
`OverflowError` on infinity (metric unit `l`, i.e. quarts/gallons) and
`ValueError` on NaN; the temperature branch's `round` behaves the same. -/
def convert_measurement_exc (v : PyFl) (unit : String) : PyRes (PyNumE × String) :=
  let ul := unit_lower unit
  if ul ∈ tempUnits then
    match pyRoundE (tempFl v) with
    | .ok z => .ok (.int z, "°C")
    | .exc e => .exc e
  else
    match conversions ul with
    | some (mu, some factor) =>
      let converted := mulFl v factor
      if mu = "ml" ∧ geFl converted 1000 then
        .ok (.dec (pyRoundToFl 2 (divFl1000 converted)) 2, "l")
      else if mu = "g" ∧ geFl converted 1000 then
        .ok (.dec (pyRoundToFl 2 (divFl1000 converted)) 2, "kg")
      else if ltFl converted 10 then
        .ok (.dec (pyRoundToFl 1 converted) 1, mu)
      else
        match pyRoundE converted with
        | .ok z => .ok (.int z, mu)
        | .exc e => .exc e
    | some (_, none) =>
      -- unreachable: the temperature keys are intercepted above
      .ok (.raw v, unit)
    | none =>
      -- unreachable from convert_text: every regex-matched unit is in the table
      .ok (.raw v, unit)

/-- Per-match replacement (src/unit_converter.py:117-131) with CPython
exception semantics: `except (ValueError, ZeroDivisionError)` catches those
two and yields `match.group(0)`; `OverflowError` is not in the tuple and
propagates out of the substitution. -/
def replace_measurement_exc (mm : MMatch) : PyRes (List Char) :=
  match convert_fraction_to_decimal_exc mm.amountStr with
  | .exc .valueError => .ok mm.orig
  | .exc .zeroDivisionError => .ok mm.orig
  | .exc .overflowError => .exc .overflowError
  | .ok amount =>
    match convert_measurement_exc amount ⟨mm.unitStr⟩ with
    | .ok (cv, mu) =>
      .ok (renderPyNumE cv ++ ' ' :: mu.data ++ ' ' :: '(' :: mm.amountStr ++ ' ' :: mm.unitStr ++ [')'])
    | .exc .valueError => .ok mm.orig
    | .exc .zeroDivisionError => .ok mm.orig
    | .exc .overflowError => .exc .overflowError

/-- `re.sub`'s emission with exception propagation: the callback's uncaught
exception aborts the substitution at the first raising match, left to
right. -/
def renderAllE : List CPiece → PyRes (List Char)
  | [] => .ok []
  | p :: ps =>
    match (match p with
           | .raw c => (.ok [c] : PyRes (List Char))
           | .m mm => replace_measurement_exc mm) with
    | .exc e => .exc e
    | .ok out =>
      match renderAllE ps with
      | .ok rest => .ok (out ++ rest)
      | .exc e => .exc e

/-- convert_text (src/unit_converter.py:107-133) with CPython exception
semantics: either the substituted text, or the exception `re.sub` lets
escape. -/
def convert_text_exc (s : String) : PyRes String :=
  match renderAllE (findPieces s.data) with
  | .ok l => .ok ⟨l⟩
  | .exc e => .exc e

/-- A quantity token of 310 nines: `float()` saturates it to infinity. -/
def hugeNines : List Char := List.replicate 310 '9'

example : convert_text_exc "2 cups" = .ok "473 ml (2 cups)" := by decide
example : convert_text_exc "1/0 cups and 2 cups" = .ok "1/0 cups and 473 ml (2 cups)" := by decide
example : convert_text_exc ⟨hugeNines ++ " quarts".data⟩ = .exc .overflowError := by decide
example : convert_text_exc ⟨hugeNines ++ " cups".data⟩
    = .ok ⟨"inf l (".data ++ hugeNines ++ " cups)".data⟩ := by decide
example : convert_text_exc ⟨hugeNines ++ " pounds".data⟩
    = .ok ⟨"inf kg (".data ++ hugeNines ++ " pounds)".data⟩ := by decide
example : convert_text_exc ⟨hugeNines ++ ('/' :: hugeNines) ++ " cups".data⟩
    = .ok ⟨hugeNines ++ ('/' :: hugeNines) ++ " cups".data⟩ := by decide
example : convert_text_exc ⟨hugeNines ++ "°F".data⟩ = .exc .overflowError := by decide
example : convert_text_exc ⟨"1 cup and ".data ++ hugeNines ++ " quarts".data⟩
    = .exc .overflowError := by decide
example : convert_text_exc ⟨'2' :: '/' :: hugeNines ++ " quarts".data⟩
    = .ok ⟨"0.0 l (2/".data ++ hugeNines ++ " quarts)".data⟩ := by decide

/-!
IngredientScaler: `scale_ingredient` with its inner `scale_match`
(src/app.py:1723-1748).  The numeric-token regex is `\d+\.?\d*(?:/\d+)?`,
substituted over the ingredient string by `re.sub`. -/

/-- Optional `\.?\d*` part of the scaler's numeric token. -/
def optDotStar (cs : List Char) : List Char × List Char :=
  match cs with
  | c :: t =>
    if c = '.' then (c :: t.takeWhile Char.isDigit, t.dropWhile Char.isDigit)
    else ([], c :: t)
  | [] => ([], [])

theorem optDotStar_append (cs : List Char) :
    (optDotStar cs).1 ++ (optDotStar cs).2 = cs := by
  unfold optDotStar
  match cs with
  | [] => rfl
  | c :: t =>
    by_cases hc : c = '.'
    · simp [hc, List.takeWhile_append_dropWhile]
    · simp [hc]

/-- Numeric token `\d+\.?\d*(?:/\d+)?` of the scaler's regex. -/
def parseNumTok (cs : List Char) : Option (List Char × List Char) :=
  let ds := cs.takeWhile Char.isDigit
  if ds = [] then none
  else
    let s1 := optDotStar (cs.dropWhile Char.isDigit)
    let s2 := optSlashDigits s1.2
    some (ds ++ s1.1 ++ s2.1, s2.2)

theorem parseNumTok_append {cs tok rest : List Char}
    (h : parseNumTok cs = some (tok, rest)) : tok ++ rest = cs ∧ tok ≠ [] := by
  unfold parseNumTok at h
  by_cases hds : cs.takeWhile Char.isDigit = []
  · simp [hds] at h
  · simp only [hds, if_neg, reduceIte, Option.some.injEq, Prod.mk.injEq] at h
    obtain ⟨htok, hrest⟩ := h
    subst htok hrest
    refine ⟨?_, by simp [hds]⟩
    simp only [List.append_assoc]
    rw [optSlashDigits_append, optDotStar_append, List.takeWhile_append_dropWhile]

theorem parseNumTok_length {cs tok rest : List Char}
    (h : parseNumTok cs = some (tok, rest)) : rest.length < cs.length := by
  obtain ⟨happ, hne⟩ := parseNumTok_append h
  have hlen := congrArg List.length happ
  simp only [List.length_append] at hlen
  have : 0 < tok.length := List.length_pos.mpr hne
  omega

/-- Value of a matched numeric token, as scale_match's try-block computes it
(src/app.py:1731-1738): split an `a/b` fraction on `/` and divide, else
`float(num_str)`; `none` models the exception caught by the bare `except`. -/
def scaleTokenValue (tok : List Char) : Option ℚ :=
  if tok.contains '/' then
    match splitC '/' tok with
    | a :: b :: _ =>
      match pyFloat a, pyFloat b with
      | some x, some y => if y = 0 then none else some (x / y)
      | _, _ => none
    | _ => none
  else pyFloat tok

/-- Python `f"{scaled:.1f}".rstrip('0').rstrip('.')` (src/app.py:1744): format
with exactly one decimal digit (rounding ties to even), then strip the
trailing zero and then a dangling point. -/
def fmtF1strip (x : ℚ) : List Char :=
  let m := pyRound (x * 10)
  let sign : List Char := if m < 0 then ['-'] else []
  if m.natAbs % 10 = 0 then sign ++ natChars (m.natAbs / 10)
  else sign ++ natChars (m.natAbs / 10) ++ '.' :: natChars (m.natAbs % 10)

/-- Inner scale_match (src/app.py:1728-1746): scale one matched numeric token;
`scaled == int(scaled)` (the value is whole) emits `str(int(scaled))`,
otherwise the one-decimal stripped format; a failed parse or a zero
denominator returns the token unchanged. -/
def scale_match (scale : ℚ) (tok : List Char) : List Char :=
  match scaleTokenValue tok with
  | none => tok
  | some num =>
    let scaled := num * scale
    if scaled.den = 1 then intChars scaled.num
    else fmtF1strip scaled

/-- Formatting step in the spec's own words (§4.2): "if the scaled value is a
whole number, emit as a plain integer string (no trailing `.0`); otherwise
emit with one decimal place and strip a trailing `.0` / trailing zero". -/
def specFormatScaled (x : ℚ) : List Char :=
  if x.den = 1 then intChars x.num else fmtF1strip x

/-- Pieces of the scaler's `re.sub` pass. -/
inductive NPiece where
  | raw (c : Char)
  | tok (t : List Char)
  deriving DecidableEq

/-- Numeric-token decomposition of an ingredient line (fuel-structural, like
`findPiecesAux`). -/
def findNumPiecesAux : ℕ → List Char → List NPiece
  | 0, _ => []
  | _ + 1, [] => []
  | fuel + 1, c :: cs =>
    match parseNumTok (c :: cs) with
    | some (t, rest) => .tok t :: findNumPiecesAux fuel rest
    | none => .raw c :: findNumPiecesAux fuel cs

/-- Numeric-token decomposition of a whole ingredient line. -/
def findNumPieces (cs : List Char) : List NPiece :=
  findNumPiecesAux cs.length cs

/-- Original text of a scaler piece. -/
def npieceOrig : NPiece → List Char
  | .raw c => [c]
  | .tok t => t

/-- Output text of a scaler piece: unmatched characters are copied, matched
tokens go through `scale_match`. -/
def renderNPiece (scale : ℚ) : NPiece → List Char
  | .raw c => [c]
  | .tok t => scale_match scale t

/-- Concatenated original text of scaler pieces. -/
def nOrigAll : List NPiece → List Char
  | [] => []
  | p :: ps => npieceOrig p ++ nOrigAll ps

/-- Concatenated output text of scaler pieces. -/
def nRenderAll (scale : ℚ) : List NPiece → List Char
  | [] => []
  | p :: ps => renderNPiece scale p ++ nRenderAll scale ps

/-- scale_ingredient (src/app.py:1723-1748): identity fast path for
`scale == 1`, else `re.sub(r'\d+\.?\d*(?:/\d+)?', scale_match, ingredient)`. -/
def scale_ingredient (ing : String) (scale : ℚ) : String :=
  if scale = 1 then ing
  else ⟨nRenderAll scale (findNumPieces ing.data)⟩

theorem nOrigAll_findNumPiecesAux (fuel : ℕ) :
    ∀ cs : List Char, cs.length ≤ fuel → nOrigAll (findNumPiecesAux fuel cs) = cs := by
  induction fuel with
  | zero =>
    intro cs hle
    have : cs = [] := List.eq_nil_of_length_eq_zero (Nat.le_zero.mp hle)
    subst this
    rfl
  | succ fuel ih =>
    intro cs hle
    match cs with
    | [] => rfl
    | c :: cs =>
      cases h : parseNumTok (c :: cs) with
      | some v =>
        obtain ⟨t, rest⟩ := v
        have hlt := parseNumTok_length h
        simp only [List.length_cons] at hle hlt
        simp only [findNumPiecesAux, h, nOrigAll, npieceOrig]
        rw [ih rest (by omega), (parseNumTok_append h).1]
      | none =>
        simp only [List.length_cons] at hle
        simp only [findNumPiecesAux, h, nOrigAll, npieceOrig, List.singleton_append]
        rw [ih cs (by omega)]

theorem nOrigAll_findNumPieces (cs : List Char) : nOrigAll (findNumPieces cs) = cs :=
  nOrigAll_findNumPiecesAux cs.length cs le_rfl

theorem nRenderAll_noDigit (k : ℚ) (fuel : ℕ) :
    ∀ cs : List Char, cs.length ≤ fuel → (∀ c ∈ cs, c.isDigit = false) →
      nRenderAll k (findNumPiecesAux fuel cs) = cs := by
  induction fuel with
  | zero =>
    intro cs hle _
    have : cs = [] := List.eq_nil_of_length_eq_zero (Nat.le_zero.mp hle)
    subst this
    rfl
  | succ fuel ih =>
    intro cs hle hnd
    match cs with
    | [] => rfl
    | c :: cs =>
      have hc : c.isDigit = false := hnd c (List.mem_cons_self _ _)
      have hnone : parseNumTok (c :: cs) = none := by
        unfold parseNumTok
        simp [List.takeWhile_cons, hc]
      simp only [List.length_cons] at hle
      simp only [findNumPiecesAux, hnone, nRenderAll, renderNPiece, List.singleton_append]
      rw [ih cs (by omega) (fun x hx => hnd x (List.mem_cons_of_mem _ hx))]

example : scale_ingredient "1/2 cup sugar" 2 = "1 cup sugar" := by decide
example : scale_ingredient "a pinch of salt" 3 = "a pinch of salt" := by decide
example : scale_ingredient "" 2 = "" := by decide
example : scale_ingredient "1 1/2 cups flour (sifted)" 3 = "3 1.5 cups flour (sifted)" := by decide

/-!
DurationParser: `parse_iso_duration` (src/recipe_scraper.py:11-40). -/

/-- Leftmost match of `re.search(r'(\d+)M' or r'(\d+)H', s)`, as a number:
scanning left to right, the first maximal digit run immediately followed by
the marker letter (the regex's greedy `\d+` can only succeed at a position if
the whole run from it ends right before the marker, and then captures the
run). -/
def searchIntBefore (marker : Char) : List Char → Option ℕ
  | [] => none
  | c :: cs =>
    if c.isDigit then
      match (c :: cs).dropWhile Char.isDigit with
      | m :: _ =>
        if m = marker then some (natOfDigits ((c :: cs).takeWhile Char.isDigit))
        else searchIntBefore marker cs
      | [] => none
    else searchIntBefore marker cs

/-- Hour count extracted from the stripped duration (0 when `(\d+)H` has no
match, as the source initialises `hours = 0`). -/
def hoursVal (d : List Char) : ℕ :=
  match searchIntBefore 'H' d with
  | some n => n
  | none => 0

/-- Minute count extracted from the stripped duration. -/
def minutesVal (d : List Char) : ℕ :=
  match searchIntBefore 'M' d with
  | some n => n
  | none => 0

/-- Python `' '.join(parts)`. -/
def joinSp : List (List Char) → List Char
  | [] => []
  | [p] => p
  | p :: q :: ps => p ++ ' ' :: joinSp (q :: ps)

/-- Parts list built by parse_iso_duration (src/recipe_scraper.py:33-38):
`f"{hours} hour{'s' if hours > 1 else ''}"` when `hours > 0`, likewise for
minutes. -/
def durationParts (d : List Char) : List (List Char) :=
  (if hoursVal d > 0 then
    [natChars (hoursVal d) ++ " hour".data ++ (if hoursVal d > 1 then ['s'] else [])]
   else [])
  ++ (if minutesVal d > 0 then
    [natChars (minutesVal d) ++ " minute".data ++ (if minutesVal d > 1 then ['s'] else [])]
   else [])

/-- parse_iso_duration on the character list: inputs without the `PT` prefix
(including the empty string) pass through; otherwise the prefix is stripped
and `' '.join(parts) if parts else duration` is returned, where `duration`
is by then the stripped remainder. -/
def pdChars (cs : List Char) : List Char :=
  match cs with
  | 'P' :: 'T' :: d => if durationParts d = [] then d else joinSp (durationParts d)
  | _ => cs

/-- parse_iso_duration (src/recipe_scraper.py:11-40). -/
def parse_iso_duration (s : String) : String :=
  ⟨pdChars s.data⟩

example : parse_iso_duration "PT1H30M" = "1 hour 30 minutes" := by decide
example : parse_iso_duration "PT45M" = "45 minutes" := by decide
example : parse_iso_duration "not a duration" = "not a duration" := by decide
example : parse_iso_duration "PT" = "" := by decide
example : parse_iso_duration "PT1H" = "1 hour" := by decide
example : parse_iso_duration "PT0H0M" = "0H0M" := by decide

/-!
Supporting lemmas shared by the claim theorems. -/

/-- Association-list lookup only returns values of entries, so a pointwise
`Bool` check over the table transfers to any successful lookup. -/
theorem factor_nonneg_of_lookup :
    ∀ l : List (String × String × Option ℚ),
      (l.all fun e => match e.2.2 with | some g => decide (0 ≤ g) | none => true) = true →
      ∀ (u mu : String) (f : ℚ), l.lookup u = some (mu, some f) → 0 ≤ f := by
  intro l
  induction l with
  | nil => intro _ u mu f h; simp [List.lookup] at h
  | cons e es ih =>
    intro hall u mu f h
    simp only [List.all_cons, Bool.and_eq_true] at hall
    obtain ⟨he, hes⟩ := hall
    obtain ⟨k, v⟩ := e
    rw [List.lookup_cons] at h
    cases hb : u == k with
    | true =>
      rw [hb] at h
      simp only [Option.some.injEq] at h
      rw [h] at he
      simpa using he
    | false =>
      rw [hb] at h
      exact ih hes u mu f h

/-- Every key of `CONVERSIONS` that carries a factor carries a non-negative
one (the table's nine numeric factors are all positive). -/
theorem conversions_factor_nonneg {u mu : String} {f : ℚ}
    (h : conversions u = some (mu, some f)) : 0 ≤ f :=
  factor_nonneg_of_lookup CONVERSIONS (by decide) u mu f h

/-- A unit whose lookup carries a factor is not one of the temperature
spellings (those map to `("celsius", None)`). -/
theorem not_temp_of_factor {u mu : String} {f : ℚ}
    (h : conversions (unit_lower u) = some (mu, some f)) : unit_lower u ∉ tempUnits := by
  intro hmem
  have h3 : unit_lower u = "fahrenheit" ∨ unit_lower u = "f" ∨ unit_lower u = "°f" := by
    simpa [tempUnits] using hmem
  have hc : conversions (unit_lower u) = some ("celsius", none) := by
    rcases h3 with h1 | h1 | h1 <;> rw [h1] <;> decide
  rw [hc] at h
  simp at h

theorem qfloor_nonneg {q : ℚ} (h : 0 ≤ q) : 0 ≤ qfloor q :=
  Int.fdiv_nonneg (Rat.num_nonneg.mpr h) (Int.natCast_nonneg _)

theorem pyRound_nonneg {q : ℚ} (h : 0 ≤ q) : 0 ≤ pyRound q := by
  unfold pyRound
  have h0 : 0 ≤ qfloor q := qfloor_nonneg h
  split_ifs <;> omega

theorem pyRoundTo_nonneg (p : ℕ) {q : ℚ} (h : 0 ≤ q) : 0 ≤ pyRoundTo p q := by
  unfold pyRoundTo
  apply div_nonneg
  · exact_mod_cast pyRound_nonneg (mul_nonneg h (by positivity))
  · positivity

/-- A piece list that is all raw characters renders to its own original
text. -/
theorem renderAll_eq_origAll_of_raw (l : List CPiece)
    (h : l.all (fun p => match p with | .raw _ => true | .m _ => false)) :
    renderAll l = origAll l := by
  induction l with
  | nil => rfl
  | cons p ps ih =>
    simp only [List.all_cons, Bool.and_eq_true] at h
    obtain ⟨hp, hps⟩ := h
    cases p with
    | raw c =>
      simp only [renderAll, origAll, renderPiece, pieceOrig]
      rw [ih hps]
    | m mm => simp at hp

/-- Whether a piece is an unmatched raw character. -/
def isRawPiece : CPiece → Bool
  | .raw _ => true
  | .m _ => false

theorem joinSp_head_ne {p : List Char} {ps : List (List Char)} (hp : p ≠ []) :
    joinSp (p :: ps) ≠ [] := by
  match ps with
  | [] => simpa [joinSp] using hp
  | q :: ps => simp [joinSp]

theorem append3_ne_nil {x m t : List Char} (hm : m ≠ []) : x ++ m ++ t ≠ [] := by
  simp [hm]

/-!
The claim theorems. -/

/-- C1 counterexample: `convert_text` CAN raise.  For the input of 310 nines
followed by `" quarts"`, `float()` saturates the token to infinity, the
metric unit `l` skips both promotion branches, `inf < 10` is false, and the
plain `round(inf)` raises `OverflowError` — which the handler
`except (ValueError, ZeroDivisionError)` does not catch, so the exception
escapes `convert_text`, refuting "never raises an exception" as stated. -/
theorem convert_text_raises_overflow :
    convert_text_exc ⟨hugeNines ++ " quarts".data⟩ = .exc .overflowError := by
  decide

/-- C1 (amended): in the exception-aware model of `convert_text`, the scan's
pieces reassemble byte-for-byte to the input; a match whose per-match
conversion fails with one of the two caught exceptions — `ValueError` or
`ZeroDivisionError`, whether raised while parsing the amount (for example
the zero-denominator fraction of `"1/0 cups"`) or inside
`convert_measurement` (for example `round(nan)`) — is replaced by exactly
its original substring, and in a text with one such failing match and one
well-formed match the failing one is preserved verbatim while the other is
still converted.  Only an uncaught `OverflowError` (an overflowed quantity
reaching the plain `round()`) escapes, as the counterexample shows. -/
theorem convert_text_fail_open_exc :
    (∀ s : String, origAll (findPieces s.data) = s.data)
    ∧ (∀ (mm : MMatch) (e : PyExc), e ≠ .overflowError →
        convert_fraction_to_decimal_exc mm.amountStr = .exc e →
        replace_measurement_exc mm = .ok mm.orig)
    ∧ (∀ (mm : MMatch) (v : PyFl) (e : PyExc), e ≠ .overflowError →
        convert_fraction_to_decimal_exc mm.amountStr = .ok v →
        convert_measurement_exc v ⟨mm.unitStr⟩ = .exc e →
        replace_measurement_exc mm = .ok mm.orig)
    ∧ convert_text_exc "1/0 cups and 2 cups" = .ok "1/0 cups and 473 ml (2 cups)" := by
  refine ⟨fun s => origAll_findPieces s.data, ?_, ?_, by decide⟩
  · intro mm e he h
    unfold replace_measurement_exc
    simp only [h]
    cases e with
    | valueError => rfl
    | zeroDivisionError => rfl
    | overflowError => exact absurd rfl he
  · intro mm v e he h1 h2
    unfold replace_measurement_exc
    simp only [h1, h2]
    cases e with
    | valueError => rfl
    | zeroDivisionError => rfl
    | overflowError => exact absurd rfl he

/-- Witness for the C1 amended theorem at a concrete caught failure (the
zero-denominator fraction). -/
theorem convert_text_fail_open_exc_witness :
    replace_measurement_exc ⟨"1/0".data, [' '], "cups".data⟩
      = .ok (MMatch.orig ⟨"1/0".data, [' '], "cups".data⟩) :=
  convert_text_fail_open_exc.2.1 ⟨"1/0".data, [' '], "cups".data⟩
    .zeroDivisionError (by decide) (by decide)

/-- C2: for a recognized non-temperature unit (a lookup with a numeric
factor), `convert_measurement` multiplies and then promotes `ml → l` and
`g → kg` at 1000 with 2-decimal rounding, else rounds to 1 decimal below 10
and to the nearest integer otherwise; in particular 5 cups give (1.18, "l"). -/
theorem convert_measurement_linear_spec :
    (∀ (a : ℚ) (u mu : String) (f : ℚ), 0 ≤ a →
      conversions (unit_lower u) = some (mu, some f) →
      ((convert_measurement a u).1.val, (convert_measurement a u).2) =
        (if mu = "ml" ∧ 1000 ≤ a * f then (pyRoundTo 2 (a * f / 1000), "l")
         else if mu = "g" ∧ 1000 ≤ a * f then (pyRoundTo 2 (a * f / 1000), "kg")
         else if a * f < 10 then (pyRoundTo 1 (a * f), mu)
         else ((pyRound (a * f) : ℚ), mu)))
    ∧ ((convert_measurement 5 "cups").1.val, (convert_measurement 5 "cups").2) = (1.18, "l") := by
  refine ⟨?_, by decide⟩
  intro a u mu f ha h
  have hnt := not_temp_of_factor h
  unfold convert_measurement
  rw [if_neg hnt]
  simp only [h]
  split_ifs <;> simp [PyNum.val]

/-- Witness for C2 at 5 cups. -/
theorem convert_measurement_linear_spec_witness :
    ((convert_measurement 5 "cups").1.val, (convert_measurement 5 "cups").2) = (1.18, "l") := by
  have h := convert_measurement_linear_spec.1 5 "cups" "ml" 236.588 (by norm_num) (by decide)
  rw [h]
  decide

/-- C3: every temperature spelling (case-insensitively, stripped) routes to
`round((f - 32) * 5/9)` — an integer — with unit `"°C"`; in particular
`convert_measurement 350 "F" = (177, "°C")`. -/
theorem convert_measurement_temperature :
    (∀ (t : ℚ) (u : String), unit_lower u ∈ tempUnits →
      convert_measurement t u = (.int (pyRound ((t - 32) * 5 / 9)), "°C"))
    ∧ convert_measurement 350 "F" = (.int 177, "°C") := by
  refine ⟨?_, by decide⟩
  intro t u hmem
  unfold convert_measurement
  rw [if_pos hmem]
  rfl

/-- Witness for C3 at 350 °F. -/
theorem convert_measurement_temperature_witness :
    convert_measurement 350 "F" = (.int (pyRound (((350 : ℚ) - 32) * 5 / 9)), "°C") :=
  convert_measurement_temperature.1 350 "F" (by decide)

/-- C4: `scale_ingredient x 1 = x` for every string — the identity fast
path of src/app.py:1725. -/
theorem scale_ingredient_one (x : String) : scale_ingredient x 1 = x := by
  unfold scale_ingredient
  simp

/-- C5: a matched numeric token that parses to value `q` (splitting an `a/b`
fraction and dividing, else parsing directly) is replaced by the scaled value
`q * k`, formatted as the spec words it: a plain integer string when whole,
else one decimal place with the trailing zero stripped; in particular
`scale_ingredient "1/2 cup sugar" 2 = "1 cup sugar"`. -/
theorem scale_match_spec :
    (∀ (k q : ℚ) (tok : List Char), scaleTokenValue tok = some q →
      scale_match k tok = specFormatScaled (q * k))
    ∧ scale_ingredient "1/2 cup sugar" 2 = "1 cup sugar" := by
  refine ⟨?_, by decide⟩
  intro k q tok h
  unfold scale_match specFormatScaled
  rw [h]

/-- Witness for C5 at the token `1/2` and scale 2. -/
theorem scale_match_spec_witness :
    scale_match 2 "1/2".data = specFormatScaled ((1 : ℚ) / 2 * 2) :=
  scale_match_spec.1 2 ((1 : ℚ) / 2) "1/2".data (by decide)

/-- C6 counterexample: the claim's "output length greater than or equal to
the input's" fails — a match whose consumed middle (here eleven extra spaces)
is longer than the annotation the replacement adds yields a strictly shorter
output. -/
theorem convert_text_shrinks :
    (convert_text "2            cups").length < ("2            cups" : String).length := by
  decide

/-- C6 amended: the empty string and any string in which the scan finds no
measurement match are returned unchanged byte-for-byte; the output's length
may be smaller than the input's when a match's dropped middle (extra
whitespace or a range expression) outweighs the added annotation. -/
theorem convert_text_no_match_id :
    (∀ s : String, (findPieces s.data).all isRawPiece → convert_text s = s)
    ∧ convert_text "" = "" := by
  refine ⟨?_, by decide⟩
  intro s hall
  obtain ⟨l⟩ := s
  show (⟨renderAll (findPieces l)⟩ : String) = ⟨l⟩
  rw [renderAll_eq_origAll_of_raw _ hall, origAll_findPieces]

/-- Witness for the C6 amended theorem on a match-free string. -/
theorem convert_text_no_match_id_witness : convert_text "hello" = "hello" :=
  convert_text_no_match_id.1 "hello" (by decide)

/-- C7 counterexample: `"f"` is a recognized unit and 0 is a non-negative
amount, yet the converted value is negative (0 °F → −18 °C), refuting
non-negativity over all recognized units. -/
theorem convert_measurement_negative_temp :
    recognizedUnit "f" = true ∧ (0 : ℚ) ≤ 0 ∧ (convert_measurement 0 "f").1.val < 0 := by
  decide

/-- C7 amended: for a non-negative amount and a recognized
**non-temperature** unit (a lookup carrying a numeric factor), the converted
value is non-negative; temperature conversions can be negative. -/
theorem convert_measurement_nonneg :
    ∀ (a : ℚ) (u mu : String) (f : ℚ), 0 ≤ a →
      conversions (unit_lower u) = some (mu, some f) →
      0 ≤ (convert_measurement a u).1.val := by
  intro a u mu f ha h
  have hf := conversions_factor_nonneg h
  have hnt := not_temp_of_factor h
  have haf : 0 ≤ a * f := mul_nonneg ha hf
  unfold convert_measurement
  rw [if_neg hnt]
  simp only [h]
  split_ifs <;> simp only [PyNum.val]
  · exact pyRoundTo_nonneg 2 (by positivity)
  · exact pyRoundTo_nonneg 2 (by positivity)
  · exact pyRoundTo_nonneg 1 haf
  · exact_mod_cast pyRound_nonneg haf

/-- Witness for the C7 amended theorem at 5 cups. -/
theorem convert_measurement_nonneg_witness : 0 ≤ (convert_measurement 5 "cups").1.val :=
  convert_measurement_nonneg 5 "cups" "ml" 236.588 (by norm_num) (by decide)

/-- C8: `scale_ingredient` changes only matched numeric tokens — the scan's
pieces reassemble to the input, an unmatched character renders as itself, for
any scale other than the fast-path 1 the output is exactly the pieces
re-rendered (matched tokens through `scale_match`, everything else copied),
and a string with no digits (hence no numeric token, since every token starts
with a digit) is returned unchanged for every scale factor. -/
theorem scale_ingredient_frame :
    (∀ cs : List Char, nOrigAll (findNumPieces cs) = cs)
    ∧ (∀ (k : ℚ) (c : Char), renderNPiece k (.raw c) = [c])
    ∧ (∀ (s : String) (k : ℚ), k ≠ 1 →
        scale_ingredient s k = ⟨nRenderAll k (findNumPieces s.data)⟩)
    ∧ (∀ (s : String) (k : ℚ), (∀ c ∈ s.data, c.isDigit = false) →
        scale_ingredient s k = s)
    ∧ scale_ingredient "a pinch of salt" 3 = "a pinch of salt" := by
  refine ⟨nOrigAll_findNumPieces, fun k c => rfl, ?_, ?_, by decide⟩
  · intro s k hk
    unfold scale_ingredient
    rw [if_neg hk]
  · intro s k hnd
    obtain ⟨l⟩ := s
    unfold scale_ingredient
    split_ifs with h1
    · rfl
    · exact congrArg String.mk (nRenderAll_noDigit k l.length l le_rfl hnd)

/-- Witness for C8 on a digit-free ingredient. -/
theorem scale_ingredient_frame_witness :
    scale_ingredient "a pinch of salt" 3 = "a pinch of salt" :=
  scale_ingredient_frame.2.2.2.1 "a pinch of salt" 3 (by decide)

/-- C9: the replacement of a successfully converted match is built from
group 1 (the first number) and group 2 (the unit) only — the consumed middle,
which contains any `to <number>` range expression, is discarded; concretely,
`"2 to 3 cups"` converts as 2 cups and the upper bound 3 vanishes. -/
theorem convert_range_upper_ignored :
    (∀ (mm : MMatch) (q : ℚ), convert_fraction_to_decimal mm.amountStr = some q →
      renderMatch mm = renderMatch ⟨mm.amountStr, [], mm.unitStr⟩)
    ∧ convert_text "2 to 3 cups" = "473 ml (2 cups)" := by
  refine ⟨?_, by decide⟩
  intro mm q h
  unfold renderMatch
  dsimp only
  rw [h]

/-- Witness for C9 at the match of `"2 to 3 cups"`. -/
theorem convert_range_upper_ignored_witness :
    renderMatch ⟨"2".data, " to 3 ".data, "cups".data⟩
      = renderMatch ⟨"2".data, [], "cups".data⟩ :=
  convert_range_upper_ignored.1 ⟨"2".data, " to 3 ".data, "cups".data⟩ 2 (by decide)

/-- C10 counterexample: the input `"PT"` is non-empty, yet
`parse_iso_duration` returns the empty string (the stripped remainder), so
"never produce an empty string when the input was non-empty" fails. -/
theorem parse_iso_duration_pt_empty :
    ("PT" : String) ≠ "" ∧ parse_iso_duration "PT" = "" := by decide

/-- C10 amended: when neither an hour nor a minute part is produced, the
stripped-prefix remainder is returned as the fallback; and for every
non-empty input other than exactly `"PT"` (whose stripped remainder is
empty) the result is non-empty. -/
theorem parse_iso_duration_fallback :
    (∀ d : List Char, hoursVal d = 0 → minutesVal d = 0 → pdChars ('P' :: 'T' :: d) = d)
    ∧ (∀ s : String, s ≠ "" → s ≠ "PT" → parse_iso_duration s ≠ "") := by
  constructor
  · intro d h1 h2
    have hp : durationParts d = [] := by
      unfold durationParts
      simp [h1, h2]
    show (if durationParts d = [] then d else joinSp (durationParts d)) = d
    rw [if_pos hp]
  · intro s hne hnePT
    obtain ⟨l⟩ := s
    have hl : l ≠ [] := by
      intro hc
      exact hne (by rw [hc])
    have hlPT : l ≠ 'P' :: 'T' :: [] := by
      intro hc
      exact hnePT (by rw [hc])
    suffices h : pdChars l ≠ [] by
      intro hc
      exact h (by simpa using congrArg String.data hc)
    unfold pdChars
    split
    next d =>
      have hd : d ≠ [] := by
        intro hc
        rw [hc] at hlPT
        exact hlPT rfl
      split_ifs with hp
      · exact hd
      · by_cases hh : hoursVal d > 0
        · unfold durationParts
          simp only [hh, reduceIte, List.cons_append]
          exact joinSp_head_ne (append3_ne_nil (by decide))
        · by_cases hm : minutesVal d > 0
          · unfold durationParts
            simp only [hh, hm, reduceIte, List.nil_append]
            exact joinSp_head_ne (append3_ne_nil (by decide))
          · exfalso
            apply hp
            unfold durationParts
            simp [hh, hm]
    next => exact hl

/-- Witness for the C10 amended theorem. -/
theorem parse_iso_duration_fallback_witness :
    pdChars ('P' :: 'T' :: 'X' :: []) = 'X' :: [] ∧ parse_iso_duration "PT5S" ≠ "" :=
  ⟨parse_iso_duration_fallback.1 ('X' :: []) (by decide) (by decide),
   parse_iso_duration_fallback.2 "PT5S" (by decide) (by decide)⟩


